import Mathlib

/-!
Verification of `textual-timepiece` (date/time picker widgets).

This file shallowly embeds the pure-computation parts of the library that the
spec's claims are about:

* the proleptic-Gregorian calendar helpers of Python's `datetime` module
  (ordinal arithmetic, `fromisocalendar`, `isocalendar`), which
  `textual_timepiece._activity_heatmap` relies on;
* `HeatmapCursor` from `_activity_heatmap.py` (`to_date`, `move`, the mode
  predicates);
* `DateCursor.confine` and `DateSelect._find_move` from
  `pickers/_date_picker.py`;
* the `whenever` calendar arithmetic (`Date + DateDelta`, `Date - Date`) used
  by `DateRangePicker` in `pickers/_timerange_picker.py`, together with the
  reactive watcher cascade of `_watch_start_date` / `_watch_end_date`;
* `DateInput.action_adjust_time` from `pickers/_date_picker.py`;
* the data-normalization pipeline of `ActivityHeatmap.process_data`.

Machine integers are modelled as `Int` (Python ints are unbounded); Python's
floor division and modulo correspond to Lean's `/` and `%` on `Int` for the
positive divisors used here.  A Python expression that can raise an uncaught
exception is modelled with `PyResult`; `Option` models `T | None` values.
-/

/-- Outcome of running a piece of Python code: either a value or an uncaught
exception (`ValueError`, `IndexError`, `ZeroDivisionError`, ...). -/
inductive PyResult (α : Type) : Type
  | raised : PyResult α
  | ok : α → PyResult α
deriving DecidableEq

/-- Sequencing of Python computations: an exception propagates. -/
def PyResult.bind {α β : Type} : PyResult α → (α → PyResult β) → PyResult β
  | .raised, _ => .raised
  | .ok a, f => f a

/-- Python list indexing `l[i]`: negative indices count from the end and an
index out of range raises `IndexError` (modelled as `none`). -/
def pyIdx {α : Type} (l : List α) (i : Int) : Option α :=
  let j : Int := if i < 0 then (l.length : Int) + i else i
  if 0 ≤ j ∧ j < (l.length : Int) then l.get? j.toNat else none

/-- `math.ceil(a / b)` for integers `a` and a positive integer `b` (the exact
value of the rational `a / b`, rounded up). -/
def ceilDiv (a b : Int) : Int := -((-a) / b)

namespace PyDatetime

/-- Gregorian leap year (`datetime._is_leap`). -/
def isLeap (y : Int) : Bool := y % 4 == 0 && (y % 100 != 0 || y % 400 == 0)

/-- Number of days in a month (`datetime._days_in_month`). -/
def daysInMonth (y m : Int) : Int :=
  if m = 2 then (if isLeap y then 29 else 28)
  else if m = 4 ∨ m = 6 ∨ m = 9 ∨ m = 11 then 30
  else 31

/-- Days in the year strictly before month `m` (`datetime._days_before_month`). -/
def daysBeforeMonth (y m : Int) : Int :=
  (if m ≤ 1 then 0 else if m = 2 then 31 else if m = 3 then 59
   else if m = 4 then 90 else if m = 5 then 120 else if m = 6 then 151
   else if m = 7 then 181 else if m = 8 then 212 else if m = 9 then 243
   else if m = 10 then 273 else if m = 11 then 304 else 334)
  + (if 2 < m ∧ isLeap y then 1 else 0)

/-- Days before January 1st of year `y` (`datetime._days_before_year`). -/
def daysBeforeYear (y : Int) : Int :=
  365 * (y - 1) + (y - 1) / 4 - (y - 1) / 100 + (y - 1) / 400

/-- Proleptic-Gregorian ordinal of a date (`datetime._ymd2ord`); day 1 is
0001-01-01. -/
def ymd2ord (y m d : Int) : Int := daysBeforeYear y + daysBeforeMonth y m + d

/-- Largest valid ordinal: 9999-12-31 (`datetime.date.max.toordinal()`). -/
def maxOrdinal : Int := daysBeforeYear 10000

/-- Linear search for the year containing ordinal `o`, starting at year `y`:
advances while the following year still starts on or before `o`. -/
def yearOfOrdAux (o : Int) : Nat → Int → Int
  | 0, y => y
  | fuel + 1, y =>
    if daysBeforeYear (y + 1) < o then yearOfOrdAux o fuel (y + 1) else y

/-- Year containing ordinal `o` (the year `y` with
`daysBeforeYear y < o ≤ daysBeforeYear (y+1)`): 400-year cycles are exact
(146097 days), so the search starts at the cycle containing `o` and needs at
most 400 steps. -/
def yearOfOrd (o : Int) : Int :=
  yearOfOrdAux o 400 (400 * ((o - 1) / 146097) + 1)

/-- A calendar date, as stored by Python's `datetime.date` and by
`whenever.Date` (year, month and day fields). -/
structure Date where
  year : Int
  month : Int
  day : Int
deriving DecidableEq

/-- Ordinal of a date (`date.toordinal()`). -/
def Date.toOrd (d : Date) : Int := ymd2ord d.year d.month d.day

/-- Month containing day-of-year `n` (1-based) of year `y`. -/
def monthOfYearDay (y n : Int) : Int :=
  if n ≤ daysBeforeMonth y 2 then 1
  else if n ≤ daysBeforeMonth y 3 then 2
  else if n ≤ daysBeforeMonth y 4 then 3
  else if n ≤ daysBeforeMonth y 5 then 4
  else if n ≤ daysBeforeMonth y 6 then 5
  else if n ≤ daysBeforeMonth y 7 then 6
  else if n ≤ daysBeforeMonth y 8 then 7
  else if n ≤ daysBeforeMonth y 9 then 8
  else if n ≤ daysBeforeMonth y 10 then 9
  else if n ≤ daysBeforeMonth y 11 then 10
  else if n ≤ daysBeforeMonth y 12 then 11
  else 12

/-- Date of an ordinal (`datetime._ord2ymd`). -/
def ord2ymd (o : Int) : Date :=
  let y := yearOfOrd o
  let n := o - daysBeforeYear y
  let m := monthOfYearDay y n
  ⟨y, m, n - daysBeforeMonth y m⟩

/-- Ordinal of the Monday starting ISO week 1 of year `y`
(`datetime._isoweek1monday`). -/
def isoweek1monday (y : Int) : Int :=
  let firstday := ymd2ord y 1 1
  let firstweekday := (firstday + 6) % 7
  let week1monday := firstday - firstweekday
  if 3 < firstweekday then week1monday + 7 else week1monday

/-- Result of `date.isocalendar()`. -/
structure IsoDate where
  year : Int
  week : Int
  weekday : Int
deriving DecidableEq

/-- `date.isocalendar()` (CPython's algorithm: week relative to the ISO week 1
Monday of the date's Gregorian year, adjusted at the year boundaries). -/
def Date.isocalendar (d : Date) : IsoDate :=
  let year := d.year
  let today := d.toOrd
  let w1 := isoweek1monday year
  let week := (today - w1) / 7
  let day := (today - w1) % 7
  if week < 0 then
    let w1p := isoweek1monday (year - 1)
    ⟨year - 1, (today - w1p) / 7 + 1, (today - w1p) % 7 + 1⟩
  else if 52 ≤ week ∧ isoweek1monday (year + 1) ≤ today then
    ⟨year + 1, 1, day + 1⟩
  else
    ⟨year, week + 1, day + 1⟩

/-- Whether ISO year `y` has 53 weeks: years starting on a Thursday, and leap
years starting on a Wednesday (check from `datetime._isoweek_to_gregorian`). -/
def hasWeek53 (y : Int) : Bool :=
  let firstWeekdayNum := ymd2ord y 1 1 % 7
  firstWeekdayNum == 4 || (firstWeekdayNum == 3 && isLeap y)

/-- `date.fromisocalendar(y, w, d)` (`datetime._isoweek_to_gregorian`):
validates the ISO year, week and weekday, then builds the date; `none` models
the `ValueError` raised on invalid input or an out-of-range result. -/
def fromisocalendar (y w d : Int) : Option Date :=
  if ¬(1 ≤ y ∧ y ≤ 9999) then none
  else if ¬(1 ≤ w ∧ w ≤ 52) ∧ ¬(w = 53 ∧ hasWeek53 y) then none
  else if ¬(1 ≤ d ∧ d ≤ 7) then none
  else
    let o := isoweek1monday y + (w - 1) * 7 + (d - 1)
    if 1 ≤ o ∧ o ≤ maxOrdinal then some (ord2ymd o) else none

end PyDatetime

namespace Timepiece

open PyDatetime

/-- `whenever.Date(year, month, day)`: validates the field ranges (years
1–9999) and raises `ValueError` otherwise (modelled as `none`). -/
def mkDate (y m d : Int) : Option Date :=
  if 1 ≤ y ∧ y ≤ 9999 ∧ 1 ≤ m ∧ m ≤ 12 ∧ 1 ≤ d ∧ d ≤ daysInMonth y m then
    some ⟨y, m, d⟩
  else none

/-- `HeatmapCursor` (`_activity_heatmap.py`): a named tuple of week, day and an
optional month. -/
structure HeatmapCursor where
  week : Int
  day : Int
  month : Option Int := none
deriving DecidableEq

namespace HeatmapCursor

/-- `HeatmapCursor.is_week`: the cursor sits on a week as a whole. -/
def is_week (c : HeatmapCursor) : Bool := c.day == 8

/-- `HeatmapCursor.is_month`: the cursor sits on a month as a whole. -/
def is_month (c : HeatmapCursor) : Bool := c.month.isSome

/-- `HeatmapCursor.is_day`: the cursor sits on a single day. -/
def is_day (c : HeatmapCursor) : Bool := !c.is_week && c.month.isNone

/-- `HeatmapCursor.to_date`: in month mode the first of the month (the
`whenever.Date` constructor may raise for an invalid stored month); otherwise
the date of the ISO week/day, with week 53 remapped to week 1 of the next
year, and `None` when `date.fromisocalendar` raises `ValueError`. -/
def to_date (c : HeatmapCursor) (year : Int) : PyResult (Option Date) :=
  match c.month with
  | some m =>
    match mkDate year m 1 with
    | none => .raised
    | some d => .ok (some d)
  | none =>
    let p := if c.week = 53 then (year + 1, 1) else (year, c.week)
    .ok (fromisocalendar p.1 p.2 (if c.is_week then 1 else c.day))

/-- `HeatmapCursor.move`: applies the deltas; when the new day hits 9 the
cursor enters month mode, deriving the month from the date implied by the
cursor (clamped to 1–12) and the week from the first of that month.  The
`date.fromisocalendar` call in the non-month branch is not guarded by a
`try`, so its `ValueError` propagates. -/
def move (c : HeatmapCursor) (year : Int) (day_delta week_delta : Int) :
    PyResult HeatmapCursor :=
  let week := c.week + week_delta
  let day := c.day + day_delta
  if day = 9 then
    let isoR : PyResult (Option Date) :=
      if c.is_month then c.to_date year
      else
        match fromisocalendar year (min (week + 1) 52) 1 with
        | none => .raised
        | some d => .ok (some d)
    match isoR with
    | .raised => .raised
    | .ok none => .ok c
    | .ok (some iso) =>
      let m := min 12 (max 1 (iso.month + week_delta))
      let w := (Date.isocalendar ⟨iso.year, m, 1⟩).week
      .ok ⟨w, day, some m⟩
  else
    .ok ⟨week, day, none⟩

end HeatmapCursor

end Timepiece

namespace PyDatetime

theorem isLeap_iff (y : Int) :
    isLeap y = true ↔ (y % 4 = 0 ∧ (y % 100 ≠ 0 ∨ y % 400 = 0)) := by
  simp [isLeap, Bool.and_eq_true, Bool.or_eq_true, beq_iff_eq, bne_iff_ne]

theorem daysBeforeYear_succ (y : Int) :
    daysBeforeYear (y + 1)
      = daysBeforeYear y + 365 + (if isLeap y then 1 else 0) := by
  have h := isLeap_iff y
  unfold daysBeforeYear
  by_cases hc : isLeap y = true
  · rw [if_pos hc]
    have hp := h.mp hc
    omega
  · rw [if_neg hc]
    have hp : ¬(y % 4 = 0 ∧ (y % 100 ≠ 0 ∨ y % 400 = 0)) :=
      fun p => hc (h.mpr p)
    omega

theorem daysBeforeYear_add_le {a b : Int} (h : a ≤ b) :
    daysBeforeYear a + 365 * (b - a) ≤ daysBeforeYear b := by
  unfold daysBeforeYear
  omega

theorem daysBeforeYear_le_add {a b : Int} (h : a ≤ b) :
    daysBeforeYear b ≤ daysBeforeYear a + 366 * (b - a) := by
  unfold daysBeforeYear
  omega

theorem daysBeforeYear_cycle (b : Int) :
    daysBeforeYear (400 * b + 1) = 146097 * b := by
  unfold daysBeforeYear
  omega

theorem ymd2ord_jan1 (y : Int) : ymd2ord y 1 1 = daysBeforeYear y + 1 := by
  simp [ymd2ord, daysBeforeMonth]

theorem isoweek1monday_bounds (y : Int) :
    daysBeforeYear y - 2 ≤ isoweek1monday y
      ∧ isoweek1monday y ≤ daysBeforeYear y + 4
      ∧ isoweek1monday y % 7 = 1 := by
  unfold isoweek1monday
  dsimp only
  rw [ymd2ord_jan1]
  split <;> omega

theorem isoweek1monday_gap (y : Int) :
    364 ≤ isoweek1monday (y + 1) - isoweek1monday y
      ∧ isoweek1monday (y + 1) - isoweek1monday y ≤ 371 := by
  have h1 := isoweek1monday_bounds y
  have h2 := isoweek1monday_bounds (y + 1)
  have h3 := daysBeforeYear_succ y
  split at h3 <;> omega

theorem yearOfOrdAux_spec (o : Int) :
    ∀ (fuel : Nat) (y : Int), daysBeforeYear y < o →
      o ≤ daysBeforeYear (y + fuel) →
      daysBeforeYear (yearOfOrdAux o fuel y) < o
        ∧ o ≤ daysBeforeYear (yearOfOrdAux o fuel y + 1)
        ∧ y ≤ yearOfOrdAux o fuel y := by
  intro fuel
  induction fuel with
  | zero =>
    intro y h1 h2
    simp only [CharP.cast_eq_zero, add_zero] at h2
    omega
  | succ f ih =>
    intro y h1 h2
    unfold yearOfOrdAux
    by_cases hc : daysBeforeYear (y + 1) < o
    · rw [if_pos hc]
      have h2' : o ≤ daysBeforeYear (y + 1 + f) := by
        have : y + (f + 1 : Nat) = y + 1 + f := by push_cast; ring
        rwa [this] at h2
      have := ih (y + 1) hc h2'
      exact ⟨this.1, this.2.1, by omega⟩
    · rw [if_neg hc]
      omega

theorem yearOfOrd_spec (o : Int) (h : 1 ≤ o) :
    daysBeforeYear (yearOfOrd o) < o
      ∧ o ≤ daysBeforeYear (yearOfOrd o + 1)
      ∧ 1 ≤ yearOfOrd o := by
  unfold yearOfOrd
  have hb1 : 146097 * ((o - 1) / 146097) ≤ o - 1 := by omega
  have hb2 : o - 1 < 146097 * ((o - 1) / 146097 + 1) := by omega
  have hc1 := daysBeforeYear_cycle ((o - 1) / 146097)
  have hc2 := daysBeforeYear_cycle ((o - 1) / 146097 + 1)
  have hstart : daysBeforeYear (400 * ((o - 1) / 146097) + 1) < o := by omega
  have hend : o ≤ daysBeforeYear (400 * ((o - 1) / 146097) + 1 + (400 : Nat)) := by
    have : 400 * ((o - 1) / 146097) + 1 + (400 : Nat)
        = 400 * ((o - 1) / 146097 + 1) + 1 := by push_cast; ring
    rw [this, hc2]
    omega
  have hfin := yearOfOrdAux_spec o 400 (400 * ((o - 1) / 146097) + 1) hstart hend
  have hpos : 0 ≤ (o - 1) / 146097 := by omega
  exact ⟨hfin.1, hfin.2.1, by omega⟩

theorem toOrd_ord2ymd (o : Int) : (ord2ymd o).toOrd = o := by
  unfold ord2ymd Date.toOrd ymd2ord
  dsimp only
  omega

theorem year_ord2ymd (o : Int) : (ord2ymd o).year = yearOfOrd o := rfl

end PyDatetime

namespace PyDatetime

theorem daysBeforeYear_one : daysBeforeYear 1 = 0 := by decide

theorem isoweek1monday_pos (y : Int) (hy : 1 ≤ y) : 1 ≤ isoweek1monday y := by
  rcases eq_or_lt_of_le hy with h | h
  · rw [← h]
    decide
  · have hb := isoweek1monday_bounds y
    have hm := daysBeforeYear_add_le (a := 1) (b := y) (by omega)
    have h1 := daysBeforeYear_one
    omega

theorem isocalendar_iso_ord (y w d o : Int) (hy : 1 ≤ y) (hw1 : 1 ≤ w)
    (hw2 : w ≤ 52) (hd1 : 1 ≤ d) (hd2 : d ≤ 7)
    (ho : o = isoweek1monday y + (w - 1) * 7 + (d - 1)) :
    (ord2ymd o).isocalendar = ⟨y, w, d⟩ := by
  have hW1pos := isoweek1monday_pos y hy
  have hopos : 1 ≤ o := by omega
  have hyo := yearOfOrd_spec o hopos
  have hWy := isoweek1monday_bounds y
  have hWy1 := isoweek1monday_bounds (y + 1)
  have hWym := isoweek1monday_bounds (y - 1)
  have hGy := isoweek1monday_gap y
  have hGym := isoweek1monday_gap (y - 1)
  have e1 : y - 1 + 1 = y := by ring
  rw [e1] at hGym
  have hcase : yearOfOrd o = y - 1 ∨ yearOfOrd o = y ∨ yearOfOrd o = y + 1 := by
    rcases le_or_lt (yearOfOrd o) (y - 2) with hle | hgt
    · exfalso
      have hmono := daysBeforeYear_add_le (a := yearOfOrd o + 1) (b := y) (by omega)
      omega
    · rcases le_or_lt (y + 2) (yearOfOrd o) with hge | hlt
      · exfalso
        have h1 := daysBeforeYear_add_le (a := y + 1) (b := yearOfOrd o) (by omega)
        have h2 := daysBeforeYear_succ y
        split at h2 <;> omega
      · omega
  unfold Date.isocalendar
  dsimp only
  rw [toOrd_ord2ymd, year_ord2ymd]
  rcases hcase with hg | hg | hg
  · -- Gregorian year y - 1: the tail of that year lies in ISO week 1 of y
    rw [hg] at hyo ⊢
    rw [e1] at hyo ⊢
    have how : w = 1 := by omega
    rw [if_neg (by omega : ¬((o - isoweek1monday (y - 1)) / 7 < 0))]
    rw [if_pos (⟨by omega, by omega⟩ :
      52 ≤ (o - isoweek1monday (y - 1)) / 7 ∧ isoweek1monday y ≤ o)]
    simp only [IsoDate.mk.injEq]
    exact ⟨trivial, by omega, by omega⟩
  · -- Gregorian year y: the generic case
    rw [hg] at hyo ⊢
    rw [if_neg (by omega : ¬((o - isoweek1monday y) / 7 < 0))]
    rw [if_neg (by omega :
      ¬(52 ≤ (o - isoweek1monday y) / 7 ∧ isoweek1monday (y + 1) ≤ o))]
    simp only [IsoDate.mk.injEq]
    exact ⟨trivial, by omega, by omega⟩
  · -- Gregorian year y + 1: the first days of January still in ISO week w of y
    rw [hg] at hyo ⊢
    have e2 : y + 1 - 1 = y := by ring
    rw [if_pos (by omega : (o - isoweek1monday (y + 1)) / 7 < 0)]
    rw [e2]
    simp only [IsoDate.mk.injEq]
    exact ⟨trivial, by omega, by omega⟩

end PyDatetime

namespace PyDatetime

theorem fromisocalendar_valid (y w d : Int) (hy : 1 ≤ y) (hy2 : y ≤ 9999)
    (hw1 : 1 ≤ w) (hw2 : w ≤ 52) (hd1 : 1 ≤ d) (hd2 : d ≤ 7) :
    fromisocalendar y w d
      = if isoweek1monday y + (w - 1) * 7 + (d - 1) ≤ maxOrdinal
        then some (ord2ymd (isoweek1monday y + (w - 1) * 7 + (d - 1)))
        else none := by
  have hW1pos := isoweek1monday_pos y hy
  unfold fromisocalendar
  rw [if_neg (by omega : ¬¬(1 ≤ y ∧ y ≤ 9999))]
  rw [if_neg (by
    intro hcon
    exact hcon.1 ⟨hw1, hw2⟩)]
  rw [if_neg (by omega : ¬¬(1 ≤ d ∧ d ≤ 7))]
  dsimp only
  by_cases hmax : isoweek1monday y + (w - 1) * 7 + (d - 1) ≤ maxOrdinal
  · rw [if_pos ⟨by omega, hmax⟩, if_pos hmax]
  · rw [if_neg (by omega), if_neg hmax]

theorem iso_ord_le_max (y w d : Int) (hy : 1 ≤ y) (hy2 : y ≤ 9998)
    (hw2 : w ≤ 52) (hd2 : d ≤ 7) :
    isoweek1monday y + (w - 1) * 7 + (d - 1) ≤ maxOrdinal := by
  have hWy := isoweek1monday_bounds y
  have hm := daysBeforeYear_add_le (a := y) (b := 10000) (by omega)
  have hmax : maxOrdinal = daysBeforeYear 10000 := rfl
  omega

end PyDatetime

namespace Timepiece

open PyDatetime

theorem to_date_no_month (w d y : Int) (hd : d ≠ 8) :
    (HeatmapCursor.mk w d none).to_date y
      = .ok (if w = 53 then fromisocalendar (y + 1) 1 d
             else fromisocalendar y w d) := by
  have hwk : (HeatmapCursor.mk w d none).is_week = false := by
    simp only [HeatmapCursor.is_week, beq_eq_false_iff_ne, ne_eq]
    exact hd
  unfold HeatmapCursor.to_date
  rw [hwk]
  dsimp only
  by_cases h53 : w = 53
  · rw [if_pos (h53 : (HeatmapCursor.mk w d none).week = 53), if_pos h53]
    rfl
  · rw [if_neg (h53 : ¬(HeatmapCursor.mk w d none).week = 53), if_neg h53]
    rfl

end Timepiece

namespace Timepiece

open PyDatetime

/-- C2 (corrected): for every year in 1..9999 and `(week, day)` with
`1 ≤ week ≤ 53`, `1 ≤ day ≤ 7`, `HeatmapCursor(week, day).to_date(year)`
returns a date whose ISO calendar week and weekday equal `(week, day)` when
`week ≤ 52`; for `week = 53` the code remaps the cursor to ISO week 1 of
`year + 1` (same weekday), so the returned date's ISO week is 1, never 53.
`None` is returned exactly when the computation leaves the supported range —
only possible for `year = 9999` — not when the year lacks an ISO week 53. -/
theorem heatmapCursor_to_date_iso_roundtrip (y w d : Int)
    (hy : 1 ≤ y) (hy2 : y ≤ 9999) (hw1 : 1 ≤ w) (hw2 : w ≤ 53)
    (hd1 : 1 ≤ d) (hd2 : d ≤ 7) :
    (∃ o : Option Date, (HeatmapCursor.mk w d none).to_date y = .ok o)
      ∧ (∀ D : Date, (HeatmapCursor.mk w d none).to_date y = .ok (some D) →
        D.isocalendar.week = (if w = 53 then 1 else w)
          ∧ D.isocalendar.weekday = d
          ∧ D.isocalendar.year = (if w = 53 then y + 1 else y))
      ∧ ((HeatmapCursor.mk w d none).to_date y = .ok none → y = 9999) := by
  have htd := to_date_no_month w d y (by omega)
  refine ⟨⟨_, htd⟩, ?_⟩
  by_cases h53 : w = 53
  · rw [if_pos h53] at htd
    subst h53
    simp only [if_pos rfl]
    by_cases hy9 : y ≤ 9998
    · rw [fromisocalendar_valid (y + 1) 1 d (by omega) (by omega) (by omega)
        (by omega) hd1 hd2] at htd
      have hle : isoweek1monday (y + 1) + (1 - 1) * 7 + (d - 1) ≤ maxOrdinal := by
        have hWy1 := isoweek1monday_bounds (y + 1)
        have hm := daysBeforeYear_add_le (a := y + 1) (b := 10000) (by omega)
        have hmax : maxOrdinal = daysBeforeYear 10000 := rfl
        omega
      rw [if_pos hle] at htd
      constructor
      · intro D hD
        rw [htd] at hD
        simp only [PyResult.ok.injEq, Option.some.injEq] at hD
        subst hD
        rw [isocalendar_iso_ord (y + 1) 1 d _ (by omega) (by omega) (by omega)
          hd1 hd2 rfl]
        exact ⟨rfl, rfl, rfl⟩
      · intro hnone
        rw [htd] at hnone
        simp at hnone
    · constructor
      · intro D hD
        rw [htd] at hD
        have hfn : fromisocalendar (y + 1) 1 d = none := by
          unfold fromisocalendar
          rw [if_pos (by omega)]
        rw [hfn] at hD
        simp at hD
      · intro _
        omega
  · rw [if_neg h53] at htd
    simp only [if_neg h53]
    rw [fromisocalendar_valid y w d hy hy2 hw1 (by omega) hd1 hd2] at htd
    by_cases hmax : isoweek1monday y + (w - 1) * 7 + (d - 1) ≤ maxOrdinal
    · rw [if_pos hmax] at htd
      constructor
      · intro D hD
        rw [htd] at hD
        simp only [PyResult.ok.injEq, Option.some.injEq] at hD
        subst hD
        rw [isocalendar_iso_ord y w d _ hy hw1 (by omega) hd1 hd2 rfl]
        exact ⟨rfl, rfl, rfl⟩
      · intro hnone
        rw [htd] at hnone
        simp at hnone
    · rw [if_neg hmax] at htd
      constructor
      · intro D hD
        rw [htd] at hD
        simp at hD
      · intro _
        by_contra hne
        exact hmax (iso_ord_le_max y w d hy (by omega) (by omega) hd2)

end Timepiece

namespace Timepiece

open PyDatetime

/-- C2 counterexample: year 2020 has an ISO week 53, yet
`HeatmapCursor(53, 1).to_date(2020)` returns 2021-01-04 — a date in ISO week 1,
not 53, and not `None` — refuting the claimed round trip at week 53. -/
theorem heatmapCursor_to_date_week53_counterexample :
    hasWeek53 2020 = true
      ∧ (HeatmapCursor.mk 53 1 none).to_date 2020 = .ok (some (Date.mk 2021 1 4))
      ∧ (Date.mk 2021 1 4).isocalendar.week = 1 := by decide

/-- C2 witness: the round-trip theorem applied at year 2025, week 5, day 6
(the cursor maps to 2025-02-01, whose ISO calendar is (2025, 5, 6)). -/
theorem heatmapCursor_to_date_iso_roundtrip_witness :
    (HeatmapCursor.mk 5 6 none).to_date 2025 = .ok (some (Date.mk 2025 2 1))
      ∧ (Date.mk 2025 2 1).isocalendar.week = 5
      ∧ (Date.mk 2025 2 1).isocalendar.weekday = 6 :=
  ⟨by decide, by
    have h := (heatmapCursor_to_date_iso_roundtrip 2025 5 6 (by norm_num)
      (by norm_num) (by norm_num) (by norm_num) (by norm_num) (by norm_num)).2.1
      (Date.mk 2025 2 1) (by decide)
    refine ⟨?_, h.2.1⟩
    have h1 := h.1
    norm_num at h1
    exact h1⟩

/-- C5: starting from the month-mode cursor `HeatmapCursor(week=1, day=9,
month=1)` for 2025, a single `move(2025, week_delta=+1)` already yields
`month = 2` with `week` the ISO week of 2025-02-01, which is week 5; so the
repeated application claimed in the spec reaches that state (after one step). -/
theorem heatmapCursor_month_transition :
    (HeatmapCursor.mk 1 9 (some 1)).move 2025 0 1
        = .ok (HeatmapCursor.mk 5 9 (some 2))
      ∧ (Date.mk 2025 2 1).isocalendar.week = 5 := by decide

/-- C8 (corrected): `is_week ⇔ day == 8`, `is_month ⇔ month ≠ None`, and
`is_day` is the complement of both; the three classifications are mutually
exclusive (exactly one holds) for every cursor except those with `day = 8`
and a month set, where `is_week` and `is_month` hold simultaneously. -/
theorem heatmapCursor_modes_exclusive (c : HeatmapCursor)
    (h : ¬(c.day = 8 ∧ c.month ≠ none)) :
    (c.is_week = true ↔ c.day = 8)
      ∧ (c.is_month = true ↔ c.month ≠ none)
      ∧ (c.is_day = true ↔ (c.is_week = false ∧ c.month = none))
      ∧ ((c.is_day = true ∧ c.is_week = false ∧ c.is_month = false)
          ∨ (c.is_day = false ∧ c.is_week = true ∧ c.is_month = false)
          ∨ (c.is_day = false ∧ c.is_week = false ∧ c.is_month = true)) := by
  obtain ⟨w, d, m⟩ := c
  cases m <;> by_cases hd : d = 8 <;>
    simp_all [HeatmapCursor.is_day, HeatmapCursor.is_week, HeatmapCursor.is_month]

/-- C8 counterexample: on `HeatmapCursor(1, 8, month=1)` both `is_week` and
`is_month` are true, refuting mutual exclusivity over all field values. -/
theorem heatmapCursor_modes_counterexample :
    (HeatmapCursor.mk 1 8 (some 1)).is_week = true
      ∧ (HeatmapCursor.mk 1 8 (some 1)).is_month = true := by decide

/-- C8 witness: the exclusivity theorem applied to `HeatmapCursor(1, 1)`. -/
theorem heatmapCursor_modes_exclusive_witness :
    ¬((HeatmapCursor.mk 1 1 none).day = 8 ∧ (HeatmapCursor.mk 1 1 none).month ≠ none)
      ∧ (((HeatmapCursor.mk 1 1 none).is_day = true
            ∧ (HeatmapCursor.mk 1 1 none).is_week = false
            ∧ (HeatmapCursor.mk 1 1 none).is_month = false)
          ∨ ((HeatmapCursor.mk 1 1 none).is_day = false
            ∧ (HeatmapCursor.mk 1 1 none).is_week = true
            ∧ (HeatmapCursor.mk 1 1 none).is_month = false)
          ∨ ((HeatmapCursor.mk 1 1 none).is_day = false
            ∧ (HeatmapCursor.mk 1 1 none).is_week = false
            ∧ (HeatmapCursor.mk 1 1 none).is_month = true)) :=
  ⟨by decide, (heatmapCursor_modes_exclusive (HeatmapCursor.mk 1 1 none) (by decide)).2.2.2⟩

/-- C10: whenever `day + day_delta ≠ 9`, `HeatmapCursor.move` returns exactly
`HeatmapCursor(week + week_delta, day + day_delta, None)`: no clamping of the
week or day, and any active month mode is exited. -/
theorem heatmapCursor_move_plain (c : HeatmapCursor)
    (year day_delta week_delta : Int) (h : c.day + day_delta ≠ 9) :
    c.move year day_delta week_delta
      = .ok ⟨c.week + week_delta, c.day + day_delta, none⟩ := by
  unfold HeatmapCursor.move
  dsimp only
  rw [if_neg h]

/-- C10 witness: `move` applied to the month-mode cursor (3, 2, month=5) with
deltas (+1, -2) gives (1, 3, None). -/
theorem heatmapCursor_move_plain_witness :
    ((HeatmapCursor.mk 3 2 (some 5)).day + 1 ≠ 9)
      ∧ (HeatmapCursor.mk 3 2 (some 5)).move 2025 1 (-2)
          = .ok (HeatmapCursor.mk 1 3 none) :=
  ⟨by decide, heatmapCursor_move_plain (HeatmapCursor.mk 3 2 (some 5)) 2025 1 (-2) (by decide)⟩

end Timepiece

namespace Timepiece

open PyDatetime

/-- `DateCursor` (`pickers/_date_picker.py`): keyboard cursor on the calendar
dialog, row `y` (0 is the header) and column `x`. -/
structure DateCursor where
  y : Int
  x : Int
deriving DecidableEq

/-- The grid data behind `DateSelect.data`: rows of display cells (cell
contents are irrelevant to cursor movement, only row lengths matter). -/
abbrev DisplayData := List (List Int)

/-- `DateCursor.confine`: `y = min(len(data) + 1, self.y)`, then the column is
clamped to the row width (`len(data[y - 1]) - 1`, evaluated with Python index
semantics) for a non-zero row and to 3 for the header row. -/
def DateCursor.confine (c : DateCursor) (data : DisplayData) : PyResult DateCursor :=
  let y := min ((data.length : Int) + 1) c.y
  if y = 0 then .ok ⟨y, min 3 (max c.x 0)⟩
  else
    match pyIdx data (y - 1) with
    | none => .raised
    | some row => .ok ⟨y, min ((row.length : Int) - 1) (max c.x 0)⟩

/-- `DateSelect._find_move`: moves the keyboard cursor by `(dy, dx)`.
Crossing the header/body boundary re-projects the column with
`math.ceil((x / len(data[dy - 1])) * 3)` resp. `math.ceil((x / 3) *
len(data[dy - 1]))` (exact rational arithmetic in place of Python floats);
vertical moves do nothing when the target row leaves `[0, len(data)]`, and
horizontal moves do nothing when the target column leaves the current row. -/
def findMove (data : DisplayData) (c : DateCursor) (dy dx : Int) :
    PyResult DateCursor :=
  let newY := c.y + dy
  if newY = 0 then
    if c.y ≠ 0 then
      match pyIdx data (dy - 1) with
      | none => .raised
      | some row =>
        if (row.length : Int) = 0 then .raised
        else DateCursor.confine ⟨newY, ceilDiv (c.x * 3) row.length⟩ data
    else DateCursor.confine ⟨newY, c.x + dx⟩ data
  else if dy ≠ 0 ∧ 0 ≤ newY ∧ newY ≤ (data.length : Int) then
    if c.y = 0 then
      match pyIdx data (dy - 1) with
      | none => .raised
      | some row => DateCursor.confine ⟨newY, ceilDiv (c.x * row.length) 3⟩ data
    else DateCursor.confine ⟨newY, c.x⟩ data
  else if dx ≠ 0 then
    if 0 ≤ c.x + dx then
      match pyIdx data (c.y - 1) with
      | none => .raised
      | some row =>
        if c.x + dx < (row.length : Int) then
          DateCursor.confine ⟨c.y, c.x + dx⟩ data
        else .ok c
    else .ok c
  else .ok c

/-- Cursor position within the bounds of the grid: row in `[0, len(data)]`,
column in `[0, 3]` on the header row and within the row width on body rows. -/
def DateCursor.inBounds (c : DateCursor) (data : DisplayData) : Bool :=
  decide (0 ≤ c.y) && decide (c.y ≤ (data.length : Int)) && decide (0 ≤ c.x) &&
    (if c.y = 0 then decide (c.x ≤ 3)
     else match pyIdx data (c.y - 1) with
          | some row => decide (c.x < (row.length : Int))
          | none => false)

theorem pyIdx_nonneg {α : Type} (l : List α) (i : Int) (h0 : 0 ≤ i)
    (h1 : i < (l.length : Int)) :
    ∃ a, pyIdx l i = some a ∧ a ∈ l := by
  unfold pyIdx
  dsimp only
  have hj : (if i < 0 then (l.length : Int) + i else i) = i := if_neg (by omega)
  rw [hj, if_pos ⟨h0, h1⟩]
  have hlt : i.toNat < l.length := by omega
  rw [List.get?_eq_get hlt]
  exact ⟨_, rfl, List.get_mem _ _ _⟩

/-- C7: `DateCursor.confine` is idempotent: for every grid and every cursor
position, confining a confined cursor gives the confined cursor (and a raised
`IndexError` stays raised when the composition is taken in sequence). -/
theorem dateCursor_confine_idempotent (data : DisplayData) (c : DateCursor) :
    (c.confine data).bind (fun c2 => c2.confine data) = c.confine data := by
  unfold DateCursor.confine
  dsimp only
  by_cases hy : min ((data.length : Int) + 1) c.y = 0
  · rw [if_pos hy, hy]
    unfold PyResult.bind
    dsimp only
    have h0 : min ((data.length : Int) + 1) (0 : Int) = 0 := by omega
    rw [h0]
    rw [if_pos rfl]
    simp only [PyResult.ok.injEq, DateCursor.mk.injEq]
    exact ⟨trivial, by omega⟩
  · rw [if_neg hy]
    rcases hcase : pyIdx data (min ((data.length : Int) + 1) c.y - 1) with _ | row
    · rfl
    · unfold PyResult.bind
      dsimp only
      have hmin : min ((data.length : Int) + 1)
            (min ((data.length : Int) + 1) c.y)
          = min ((data.length : Int) + 1) c.y := by omega
      rw [hmin, if_neg hy, hcase]
      simp only [PyResult.ok.injEq, DateCursor.mk.injEq]
      exact ⟨trivial, by omega⟩

end Timepiece

namespace Timepiece

open PyDatetime

theorem confine_inBounds (data : DisplayData) (c : DateCursor)
    (hrows : ∀ row ∈ data, row ≠ ([] : List Int))
    (hy0 : 0 ≤ c.y) (hy1 : c.y ≤ (data.length : Int)) :
    ∃ c', c.confine data = .ok c' ∧ c'.inBounds data = true := by
  unfold DateCursor.confine
  dsimp only
  have hmin : min ((data.length : Int) + 1) c.y = c.y := by omega
  rw [hmin]
  by_cases hy : c.y = 0
  · rw [if_pos hy]
    refine ⟨_, rfl, ?_⟩
    unfold DateCursor.inBounds
    dsimp only
    rw [if_pos hy]
    simp only [Bool.and_eq_true, decide_eq_true_eq]
    omega
  · rw [if_neg hy]
    obtain ⟨row, hrow, hmem⟩ := pyIdx_nonneg data (c.y - 1) (by omega) (by omega)
    rw [hrow]
    refine ⟨_, rfl, ?_⟩
    have hlen1 : 1 ≤ (row.length : Int) := by
      have := List.length_pos.mpr (hrows row hmem)
      omega
    unfold DateCursor.inBounds
    dsimp only
    rw [if_neg hy, hrow]
    simp only [Bool.and_eq_true, decide_eq_true_eq]
    omega

theorem confine_ok_inBounds (data : DisplayData) (y x : Int) (c' : DateCursor)
    (hrows : ∀ row ∈ data, row ≠ ([] : List Int))
    (hy0 : 0 ≤ y) (hy1 : y ≤ (data.length : Int))
    (hconf : DateCursor.confine ⟨y, x⟩ data = .ok c') :
    c'.inBounds data = true := by
  obtain ⟨c'', hc, hb⟩ := confine_inBounds data ⟨y, x⟩ hrows hy0 hy1
  rw [hc] at hconf
  injection hconf with h
  rwa [← h]

theorem findMove_preserves_inBounds (data : DisplayData) (c c' : DateCursor)
    (dy dx : Int) (hrows : ∀ row ∈ data, row ≠ ([] : List Int))
    (hin : c.inBounds data = true)
    (hfm : findMove data c dy dx = .ok c') :
    c'.inBounds data = true := by
  have hybounds : 0 ≤ c.y ∧ c.y ≤ (data.length : Int) := by
    unfold DateCursor.inBounds at hin
    simp only [Bool.and_eq_true, decide_eq_true_eq] at hin
    exact ⟨hin.1.1.1, hin.1.1.2⟩
  unfold findMove at hfm
  dsimp only at hfm
  split at hfm
  · -- new row is the header
    split at hfm
    · -- leaving the body
      split at hfm
      · cases hfm
      · split at hfm
        · cases hfm
        · exact confine_ok_inBounds data _ _ c' hrows (by omega) (by omega) hfm
    · -- already on the header
      exact confine_ok_inBounds data _ _ c' hrows (by omega) (by omega) hfm
  · split at hfm
    · -- vertical move within bounds
      split at hfm
      · split at hfm
        · cases hfm
        · next h2 _ _ =>
            exact confine_ok_inBounds data _ _ c' hrows (by omega) (by omega) hfm
      · next h2 _ =>
          exact confine_ok_inBounds data _ _ c' hrows (by omega) (by omega) hfm
    · -- horizontal move or no move
      split at hfm
      · split at hfm
        · split at hfm
          · cases hfm
          · split at hfm
            · exact confine_ok_inBounds data _ _ c' hrows (by omega) (by omega) hfm
            · injection hfm with h
              rwa [← h]
        · injection hfm with h
          rwa [← h]
      · injection hfm with h
        rwa [← h]

end Timepiece

namespace Timepiece

open PyDatetime

/-- C3 (corrected): on a grid whose rows are non-empty, `DateCursor.confine`
returns an in-bounds position (row in `[0, len(grid)]`, column in
`[0, len(row)-1]` for body rows and `[0, 3]` for the header) for every
starting position whose row already lies in `[0, len(grid)]`; and
`DateSelect._find_move` preserves in-bounds positions.  For arbitrary starting
positions the claim fails: `confine` does not raise a negative row (see the
counterexample), and a row of `len(grid) + 1` makes it raise `IndexError`. -/
theorem dateCursor_confine_bounds :
    (∀ (data : DisplayData) (c : DateCursor),
        (∀ row ∈ data, row ≠ ([] : List Int)) →
        0 ≤ c.y → c.y ≤ (data.length : Int) →
        ∃ c', c.confine data = .ok c' ∧ c'.inBounds data = true)
      ∧ (∀ (data : DisplayData) (c c' : DateCursor) (dy dx : Int),
          (∀ row ∈ data, row ≠ ([] : List Int)) → c.inBounds data = true →
          findMove data c dy dx = .ok c' → c'.inBounds data = true) :=
  ⟨confine_inBounds, findMove_preserves_inBounds⟩

/-- C3 counterexample: on a non-empty grid, confining the position `(-1, 0)`
returns `(-1, 0)` itself — an out-of-bounds row — so `confine` does not
return a position within bounds for arbitrary starting positions. -/
theorem dateCursor_confine_negative_row_counterexample :
    DateCursor.confine ⟨-1, 0⟩ [[1, 2, 3, 4, 5, 6, 7], [1, 2, 3, 4, 5, 6, 7]]
        = .ok ⟨-1, 0⟩
      ∧ (DateCursor.mk (-1) 0).inBounds
          [[1, 2, 3, 4, 5, 6, 7], [1, 2, 3, 4, 5, 6, 7]] = false := by
  decide

/-- C3 witness: the bounds theorem applied to the 2-row grid and the
position `(2, 99)`, which is confined to `(2, 2)`. -/
theorem dateCursor_confine_bounds_witness :
    DateCursor.confine ⟨2, 99⟩ [[1, 2, 3], [4, 5, 6]] = .ok ⟨2, 2⟩
      ∧ (DateCursor.mk 2 2).inBounds [[1, 2, 3], [4, 5, 6]] = true := by
  refine ⟨by decide, ?_⟩
  obtain ⟨c', hc, hb⟩ := dateCursor_confine_bounds.1 [[1, 2, 3], [4, 5, 6]]
    ⟨2, 99⟩ (by decide) (by decide) (by decide)
  have heq : DateCursor.confine ⟨2, 99⟩ [[1, 2, 3], [4, 5, 6]] = .ok ⟨2, 2⟩ := by
    decide
  rw [heq] at hc
  injection hc with h
  rwa [← h] at hb

/-- C4 (corrected): moving down from header cell 2 into a 7-wide row lands on
column `ceil(2/3*7) = 5` (the code divides by 3, the header's maximum index,
and takes the ceiling — not `round(2/4*7) = 4`); vertical moves that do not
touch the header keep the column (before confinement) and leave the cursor
unchanged when the target row leaves `[0, len(grid)]`. -/
theorem dateSelect_findMove_header_projection :
    (findMove [[1, 2, 3, 4, 5, 6, 7], [1, 2, 3, 4, 5, 6, 7]] ⟨0, 2⟩ 1 0
        = .ok ⟨1, 5⟩
      ∧ (5 : Int) = ceilDiv (2 * 7) 3)
      ∧ (∀ (data : DisplayData) (c : DateCursor) (dy : Int),
          c.y ≠ 0 → c.y + dy ≠ 0 → dy ≠ 0 →
          0 ≤ c.y + dy → c.y + dy ≤ (data.length : Int) →
          findMove data c dy 0 = DateCursor.confine ⟨c.y + dy, c.x⟩ data)
      ∧ (∀ (data : DisplayData) (c : DateCursor) (dy : Int),
          c.y + dy ≠ 0 → ¬(0 ≤ c.y + dy ∧ c.y + dy ≤ (data.length : Int)) →
          findMove data c dy 0 = .ok c) := by
  refine ⟨⟨by decide, by decide⟩, ?_, ?_⟩
  · intro data c dy h0 h1 h2 h3 h4
    unfold findMove
    dsimp only
    rw [if_neg h1, if_pos ⟨h2, h3, h4⟩, if_neg h0]
  · intro data c dy h1 h2
    unfold findMove
    dsimp only
    rw [if_neg h1, if_neg (fun hcon => h2 ⟨hcon.2.1, hcon.2.2⟩),
      if_neg (by simp : ¬(0 : Int) ≠ 0)]

/-- C4 counterexample: moving down from header cell 2 of 4 into a 7-wide row
lands on column 5, not the claimed `round(2/4*7) = 4`. -/
theorem dateSelect_findMove_round_counterexample :
    findMove [[1, 2, 3, 4, 5, 6, 7], [1, 2, 3, 4, 5, 6, 7]] ⟨0, 2⟩ 1 0
        = .ok ⟨1, 5⟩
      ∧ findMove [[1, 2, 3, 4, 5, 6, 7], [1, 2, 3, 4, 5, 6, 7]] ⟨0, 2⟩ 1 0
        ≠ .ok ⟨1, 4⟩ := by
  decide

/-- C4 witness: the projection theorem applied to a 2-row grid — a
non-crossing vertical move from `(1, 2)` equals plain confinement of
`(2, 2)`, and a move below the last row leaves the cursor at `(2, 0)`. -/
theorem dateSelect_findMove_header_projection_witness :
    findMove [[1, 2, 3], [4, 5, 6]] ⟨1, 2⟩ 1 0
        = DateCursor.confine ⟨2, 2⟩ [[1, 2, 3], [4, 5, 6]]
      ∧ findMove [[1, 2, 3], [4, 5, 6]] ⟨2, 0⟩ 1 0 = .ok ⟨2, 0⟩ := by
  constructor
  · exact dateSelect_findMove_header_projection.2.1 [[1, 2, 3], [4, 5, 6]]
      ⟨1, 2⟩ 1 (by decide) (by decide) (by decide) (by decide) (by decide)
  · exact dateSelect_findMove_header_projection.2.2 [[1, 2, 3], [4, 5, 6]]
      ⟨2, 0⟩ 1 (by decide) (by decide)

end Timepiece

namespace Timepiece

open PyDatetime

/-- `whenever.DateDelta`: a calendar delta, stored as whole months (years
folded in) plus days (weeks folded in). -/
structure DateDelta where
  months : Int
  days : Int
deriving DecidableEq

/-- Shift a date by whole months, constraining the day to the end of the
target month (the clamping used by `whenever` for month/year arithmetic). -/
def addMonthsClamp (d : Date) (mos : Int) : Date :=
  let tot := d.year * 12 + (d.month - 1) + mos
  let y := tot / 12
  let m := tot % 12 + 1
  ⟨y, m, min d.day (daysInMonth y m)⟩

/-- `whenever.Date + DateDelta`: years/months first (with day clamping), then
days; raises `ValueError` (modelled `none`) when the result leaves years
1–9999. -/
def dateAdd (d : Date) (delta : DateDelta) : Option Date :=
  let dm := addMonthsClamp d delta.months
  let o := dm.toOrd + delta.days
  if 1 ≤ o ∧ o ≤ maxOrdinal then some (ord2ymd o) else none

/-- `whenever.Date - DateDelta`: adding the negated delta. -/
def dateSub (d : Date) (delta : DateDelta) : Option Date :=
  dateAdd d ⟨-delta.months, -delta.days⟩

/-- `whenever.Date - Date` (`self - other`): the difference as whole months —
the raw month-field difference, adjusted by one when it overshoots — plus
the remaining days. -/
def dateDiff (self other : Date) : DateDelta :=
  let mos0 := 12 * (self.year - other.year) + (self.month - other.month)
  if other.toOrd ≤ self.toOrd then
    let mos := if self.toOrd < (addMonthsClamp other mos0).toOrd
               then mos0 - 1 else mos0
    ⟨mos, self.toOrd - (addMonthsClamp other mos).toOrd⟩
  else
    let mos := if (addMonthsClamp other mos0).toOrd < self.toOrd
               then mos0 + 1 else mos0
    ⟨mos, self.toOrd - (addMonthsClamp other mos).toOrd⟩

end Timepiece

namespace Timepiece

open PyDatetime

/-- The reactive date state of `DateRangePicker`
(`pickers/_timerange_picker.py`): the two bound dates and the engaged lock
delta `_date_range`. -/
structure RangeState where
  start_date : Option Date
  end_date : Option Date
  date_range : Option DateDelta
deriving DecidableEq

/-- `DateRangePicker._lock_delta` with the lock button engaged and both dates
present: captures `_date_range = end_date - start_date`; otherwise the lock
is cleared. -/
def engageLock (st : RangeState) : RangeState :=
  match st.end_date, st.start_date with
  | some e, some s => { st with date_range := some (dateDiff e s) }
  | _, _ => { st with date_range := none }

/-- One execution of the body of `_watch_start_date` (`dir = true`) or
`_watch_end_date` (`dir = false`): the guard `if date and self._date_range:`
tests truthiness, and a zero `whenever.DateDelta` is falsy, so the opposite
date is recomputed only when the changed date is present and the lock delta
is present and non-zero.  Returns the updated state and whether the write
changed the opposite date (textual then runs that reactive's watcher);
`.raised` models an uncaught `ValueError` from the `whenever` arithmetic. -/
def watchBody (dir : Bool) (st : RangeState) : PyResult (RangeState × Bool) :=
  if dir then
    match st.start_date, st.date_range with
    | some s, some r =>
      if r = ⟨0, 0⟩ then .ok (st, false)
      else
        match dateAdd s r with
        | none => .raised
        | some e =>
          if st.end_date = some e then .ok (st, false)
          else .ok ({ st with end_date := some e }, true)
    | _, _ => .ok (st, false)
  else
    match st.end_date, st.date_range with
    | some e, some r =>
      if r = ⟨0, 0⟩ then .ok (st, false)
      else
        match dateSub e r with
        | none => .raised
        | some s =>
          if st.start_date = some s then .ok (st, false)
          else .ok ({ st with start_date := some s }, true)
    | _, _ => .ok (st, false)

/-- The watcher cascade: textual invokes a reactive's watcher synchronously
when its value changes, so a write inside `_watch_start_date` re-enters
`_watch_end_date` (and back) until a write no longer changes a value.
`fuel` bounds the depth (`.raised` on exhaustion models an unbounded
re-entrant chain, i.e. Python's `RecursionError`). -/
def runCascade : Nat → Bool → RangeState → PyResult RangeState
  | fuel, dir, st =>
    match watchBody dir st with
    | .raised => .raised
    | .ok (st2, false) => .ok st2
    | .ok (st2, true) =>
      match fuel with
      | 0 => .raised
      | f + 1 => runCascade f (!dir) st2

/-- Assigning `start_date` on the picker: the watcher runs only when the
value changes. -/
def setStartDate (fuel : Nat) (st : RangeState) (d : Option Date) :
    PyResult RangeState :=
  if st.start_date = d then .ok st
  else runCascade fuel true { st with start_date := d }

/-- Assigning `end_date` on the picker: the watcher runs only when the value
changes. -/
def setEndDate (fuel : Nat) (st : RangeState) (d : Option Date) :
    PyResult RangeState :=
  if st.end_date = d then .ok st
  else runCascade fuel false { st with end_date := d }

end Timepiece

namespace Timepiece

open PyDatetime

theorem watchBody_true_stable (st st2 : RangeState) (r : DateDelta) (s : Date)
    (h1 : st.date_range = some r) (h2 : st.start_date = some s)
    (hrz : r ≠ ⟨0, 0⟩)
    (h : watchBody true st = .ok (st2, false)) :
    st2 = st ∧ ∃ e, dateAdd s r = some e ∧ st.end_date = some e := by
  unfold watchBody at h
  rw [if_pos rfl] at h
  split at h
  · next s1 r1 heqs heqr =>
    rw [h2] at heqs
    rw [h1] at heqr
    injection heqs with hs
    injection heqr with hr
    subst hs
    subst hr
    rw [if_neg hrz] at h
    split at h
    · cases h
    · next e hadd =>
      split at h
      · next hend =>
        injection h with h'
        injection h' with ha hb
        exact ⟨ha.symm, e, hadd, hend⟩
      · injection h with h'
        injection h' with ha hb
        cases hb
  · next hno =>
    exact absurd (hno s r h2 h1) (by intro h; exact h)

theorem watchBody_true_changed (st st2 : RangeState) (r : DateDelta) (s : Date)
    (h1 : st.date_range = some r) (h2 : st.start_date = some s)
    (hrz : r ≠ ⟨0, 0⟩)
    (h : watchBody true st = .ok (st2, true)) :
    ∃ e, dateAdd s r = some e ∧ st2 = { st with end_date := some e } := by
  unfold watchBody at h
  rw [if_pos rfl] at h
  split at h
  · next s1 r1 heqs heqr =>
    rw [h2] at heqs
    rw [h1] at heqr
    injection heqs with hs
    injection heqr with hr
    subst hs
    subst hr
    rw [if_neg hrz] at h
    split at h
    · cases h
    · next e hadd =>
      split at h
      · injection h with h'
        injection h' with ha hb
        cases hb
      · injection h with h'
        injection h' with ha hb
        exact ⟨e, hadd, ha.symm⟩
  · next hno =>
    exact absurd (hno s r h2 h1) (by intro h; exact h)

theorem watchBody_false_stable (st st2 : RangeState) (r : DateDelta) (e : Date)
    (h1 : st.date_range = some r) (h3 : st.end_date = some e)
    (hrz : r ≠ ⟨0, 0⟩)
    (h : watchBody false st = .ok (st2, false)) :
    st2 = st ∧ ∃ s, dateSub e r = some s ∧ st.start_date = some s := by
  unfold watchBody at h
  rw [if_neg (by simp)] at h
  split at h
  · next e1 r1 heqe heqr =>
    rw [h3] at heqe
    rw [h1] at heqr
    injection heqe with he
    injection heqr with hr
    subst he
    subst hr
    rw [if_neg hrz] at h
    split at h
    · cases h
    · next s hsub =>
      split at h
      · next hstart =>
        injection h with h'
        injection h' with ha hb
        exact ⟨ha.symm, s, hsub, hstart⟩
      · injection h with h'
        injection h' with ha hb
        cases hb
  · next hno =>
    exact absurd (hno e r h3 h1) (by intro h; exact h)

theorem watchBody_false_changed (st st2 : RangeState) (r : DateDelta) (e : Date)
    (h1 : st.date_range = some r) (h3 : st.end_date = some e)
    (hrz : r ≠ ⟨0, 0⟩)
    (h : watchBody false st = .ok (st2, true)) :
    ∃ s, dateSub e r = some s ∧ st2 = { st with start_date := some s } := by
  unfold watchBody at h
  rw [if_neg (by simp)] at h
  split at h
  · next e1 r1 heqe heqr =>
    rw [h3] at heqe
    rw [h1] at heqr
    injection heqe with he
    injection heqr with hr
    subst he
    subst hr
    rw [if_neg hrz] at h
    split at h
    · cases h
    · next s hsub =>
      split at h
      · injection h with h'
        injection h' with ha hb
        cases hb
      · injection h with h'
        injection h' with ha hb
        exact ⟨s, hsub, ha.symm⟩
  · next hno =>
    exact absurd (hno e r h3 h1) (by intro h; exact h)

end Timepiece

namespace Timepiece

open PyDatetime

theorem runCascade_add_spec (fuel : Nat) :
    (∀ (st res : RangeState) (r : DateDelta) (s : Date),
      st.date_range = some r → r ≠ ⟨0, 0⟩ → st.start_date = some s →
      runCascade fuel true st = .ok res →
      res.date_range = some r ∧ ∃ s' e', res.start_date = some s'
        ∧ res.end_date = some e' ∧ dateAdd s' r = some e')
    ∧ (∀ (st res : RangeState) (r : DateDelta) (s e : Date),
      st.date_range = some r → r ≠ ⟨0, 0⟩ → st.start_date = some s →
      st.end_date = some e → dateAdd s r = some e →
      runCascade fuel false st = .ok res →
      res.date_range = some r ∧ ∃ s' e', res.start_date = some s'
        ∧ res.end_date = some e' ∧ dateAdd s' r = some e') := by
  induction fuel with
  | zero =>
    constructor
    · intro st res r s h1 hrz h2 hrec
      unfold runCascade at hrec
      split at hrec
      · cases hrec
      · next st2 heq =>
        injection hrec with h'
        subst h'
        obtain ⟨hst, e, hadd, hend⟩ := watchBody_true_stable st st2 r s h1 h2 hrz heq
        subst hst
        exact ⟨h1, s, e, h2, hend, hadd⟩
      · cases hrec
    · intro st res r s e h1 hrz h2 h3 hadd hrec
      unfold runCascade at hrec
      split at hrec
      · cases hrec
      · next st2 heq =>
        injection hrec with h'
        subst h'
        obtain ⟨hst, s2, hsub, hstart⟩ := watchBody_false_stable st st2 r e h1 h3 hrz heq
        subst hst
        exact ⟨h1, s, e, h2, h3, hadd⟩
      · cases hrec
  | succ f ih =>
    constructor
    · intro st res r s h1 hrz h2 hrec
      unfold runCascade at hrec
      split at hrec
      · cases hrec
      · next st2 heq =>
        injection hrec with h'
        subst h'
        obtain ⟨hst, e, hadd, hend⟩ := watchBody_true_stable st st2 r s h1 h2 hrz heq
        subst hst
        exact ⟨h1, s, e, h2, hend, hadd⟩
      · next st2 heq =>
        obtain ⟨e, hadd, hst2⟩ := watchBody_true_changed st st2 r s h1 h2 hrz heq
        subst hst2
        exact ih.2 { st with end_date := some e } res r s e h1 hrz h2 rfl hadd hrec
    · intro st res r s e h1 hrz h2 h3 hadd hrec
      unfold runCascade at hrec
      split at hrec
      · cases hrec
      · next st2 heq =>
        injection hrec with h'
        subst h'
        obtain ⟨hst, s2, hsub, hstart⟩ := watchBody_false_stable st st2 r e h1 h3 hrz heq
        subst hst
        exact ⟨h1, s, e, h2, h3, hadd⟩
      · next st2 heq =>
        obtain ⟨s2, hsub, hst2⟩ := watchBody_false_changed st st2 r e h1 h3 hrz heq
        subst hst2
        exact ih.1 { st with start_date := some s2 } res r s2 h1 hrz rfl hrec

end Timepiece

namespace Timepiece

open PyDatetime

theorem runCascade_sub_spec (fuel : Nat) :
    (∀ (st res : RangeState) (r : DateDelta) (e : Date),
      st.date_range = some r → r ≠ ⟨0, 0⟩ → st.end_date = some e →
      runCascade fuel false st = .ok res →
      res.date_range = some r ∧ ∃ s' e', res.start_date = some s'
        ∧ res.end_date = some e' ∧ dateSub e' r = some s')
    ∧ (∀ (st res : RangeState) (r : DateDelta) (s e : Date),
      st.date_range = some r → r ≠ ⟨0, 0⟩ → st.start_date = some s →
      st.end_date = some e → dateSub e r = some s →
      runCascade fuel true st = .ok res →
      res.date_range = some r ∧ ∃ s' e', res.start_date = some s'
        ∧ res.end_date = some e' ∧ dateSub e' r = some s') := by
  induction fuel with
  | zero =>
    constructor
    · intro st res r e h1 hrz h3 hrec
      unfold runCascade at hrec
      split at hrec
      · cases hrec
      · next st2 heq =>
        injection hrec with h'
        subst h'
        obtain ⟨hst, s, hsub, hstart⟩ := watchBody_false_stable st st2 r e h1 h3 hrz heq
        subst hst
        exact ⟨h1, s, e, hstart, h3, hsub⟩
      · cases hrec
    · intro st res r s e h1 hrz h2 h3 hsub hrec
      unfold runCascade at hrec
      split at hrec
      · cases hrec
      · next st2 heq =>
        injection hrec with h'
        subst h'
        obtain ⟨hst, e2, hadd, hend⟩ := watchBody_true_stable st st2 r s h1 h2 hrz heq
        subst hst
        exact ⟨h1, s, e, h2, h3, hsub⟩
      · cases hrec
  | succ f ih =>
    constructor
    · intro st res r e h1 hrz h3 hrec
      unfold runCascade at hrec
      split at hrec
      · cases hrec
      · next st2 heq =>
        injection hrec with h'
        subst h'
        obtain ⟨hst, s, hsub, hstart⟩ := watchBody_false_stable st st2 r e h1 h3 hrz heq
        subst hst
        exact ⟨h1, s, e, hstart, h3, hsub⟩
      · next st2 heq =>
        obtain ⟨s2, hsub, hst2⟩ := watchBody_false_changed st st2 r e h1 h3 hrz heq
        subst hst2
        exact ih.2 { st with start_date := some s2 } res r s2 e h1 hrz rfl h3 hsub hrec
    · intro st res r s e h1 hrz h2 h3 hsub hrec
      unfold runCascade at hrec
      split at hrec
      · cases hrec
      · next st2 heq =>
        injection hrec with h'
        subst h'
        obtain ⟨hst, e2, hadd, hend⟩ := watchBody_true_stable st st2 r s h1 h2 hrz heq
        subst hst
        exact ⟨h1, s, e, h2, h3, hsub⟩
      · next st2 heq =>
        obtain ⟨e2, hadd, hst2⟩ := watchBody_true_changed st st2 r s h1 h2 hrz heq
        subst hst2
        exact ih.1 { st with end_date := some e2 } res r e2 h1 hrz rfl hrec

end Timepiece

namespace Timepiece

open PyDatetime

theorem watchBody_zero (dir : Bool) (st : RangeState)
    (h : st.date_range = some ⟨0, 0⟩) :
    watchBody dir st = .ok (st, false) := by
  unfold watchBody
  rcases dir with _ | _
  · rw [if_neg (by simp)]
    split
    · next e1 r1 heqe heqr =>
      rw [h] at heqr
      injection heqr with hr
      subst hr
      rw [if_pos rfl]
    · rfl
  · rw [if_pos rfl]
    split
    · next s1 r1 heqs heqr =>
      rw [h] at heqr
      injection heqr with hr
      subst hr
      rw [if_pos rfl]
    · rfl

theorem runCascade_zero (fuel : Nat) (dir : Bool) (st : RangeState)
    (h : st.date_range = some ⟨0, 0⟩) :
    runCascade fuel dir st = .ok st := by
  unfold runCascade
  rw [watchBody_zero dir st h]

/-- C1 (corrected): once the lock holds a non-zero delta `r`, assigning a
changed start date settles (through the re-entrant watcher chain) in a state
with `end_date = start_date + r`, and assigning a changed end date settles
with `start_date = end_date - r`; the lock delta itself is never modified.
With a zero lock delta (captured by `_lock_delta` when start = end) the
watcher guard `if date and self._date_range:` is falsy and the opposite date
is left untouched.  The calendar difference `end - start`, however, need not
equal `r` (see the counterexample): the claimed invariant
`end - start == span` is false. -/
theorem dateRangePicker_lock_reconciliation :
    (∀ (fuel : Nat) (st : RangeState) (d : Date) (res : RangeState)
        (r : DateDelta),
        st.date_range = some r → r ≠ ⟨0, 0⟩ → st.start_date ≠ some d →
        setStartDate fuel st (some d) = .ok res →
        res.date_range = some r ∧ ∃ s' e', res.start_date = some s'
          ∧ res.end_date = some e' ∧ dateAdd s' r = some e')
    ∧ (∀ (fuel : Nat) (st : RangeState) (d : Date) (res : RangeState)
        (r : DateDelta),
        st.date_range = some r → r ≠ ⟨0, 0⟩ → st.end_date ≠ some d →
        setEndDate fuel st (some d) = .ok res →
        res.date_range = some r ∧ ∃ s' e', res.start_date = some s'
          ∧ res.end_date = some e' ∧ dateSub e' r = some s')
    ∧ (∀ (fuel : Nat) (st : RangeState) (d : Option Date),
        st.date_range = some ⟨0, 0⟩ →
        setStartDate fuel st d = .ok { st with start_date := d }
          ∧ setEndDate fuel st d = .ok { st with end_date := d }) := by
  refine ⟨?_, ?_, ?_⟩
  · intro fuel st d res r h1 hrz hne hset
    unfold setStartDate at hset
    rw [if_neg hne] at hset
    exact (runCascade_add_spec fuel).1 { st with start_date := some d }
      res r d h1 hrz rfl hset
  · intro fuel st d res r h1 hrz hne hset
    unfold setEndDate at hset
    rw [if_neg hne] at hset
    exact (runCascade_sub_spec fuel).1 { st with end_date := some d }
      res r d h1 hrz rfl hset
  · intro fuel st d h0
    constructor
    · unfold setStartDate
      by_cases hsd : st.start_date = d
      · rw [if_pos hsd]
        rw [show { st with start_date := d } = st by
          cases st
          simp only [RangeState.mk.injEq]
          exact ⟨hsd.symm, trivial, trivial⟩]
      · rw [if_neg hsd]
        exact runCascade_zero fuel true { st with start_date := d } h0
    · unfold setEndDate
      by_cases hed : st.end_date = d
      · rw [if_pos hed]
        rw [show { st with end_date := d } = st by
          cases st
          simp only [RangeState.mk.injEq]
          exact ⟨trivial, hed.symm, trivial⟩]
      · rw [if_neg hed]
        exact runCascade_zero fuel false { st with end_date := d } h0

/-- C1 counterexample: engaging the lock on 2025-03-01..2025-03-31 captures
the span P30D; assigning start 2025-02-01 settles at end = 2025-03-03
(start + 30 days), but `end - start` is then P1M2D, not P30D — the claimed
invariant is violated by the very first update. -/
theorem dateRangePicker_lock_span_counterexample :
    (engageLock ⟨some ⟨2025, 3, 1⟩, some ⟨2025, 3, 31⟩, none⟩).date_range
        = some ⟨0, 30⟩
      ∧ setStartDate 16
          (engageLock ⟨some ⟨2025, 3, 1⟩, some ⟨2025, 3, 31⟩, none⟩)
          (some ⟨2025, 2, 1⟩)
          = .ok ⟨some ⟨2025, 2, 1⟩, some ⟨2025, 3, 3⟩, some ⟨0, 30⟩⟩
      ∧ dateDiff ⟨2025, 3, 3⟩ ⟨2025, 2, 1⟩ ≠ (⟨0, 30⟩ : DateDelta) := by
  refine ⟨by decide, by decide, by decide⟩

/-- C1 witness: the reconciliation theorem applied to the locked P30D state
with the start set to 2025-02-01 (the cascade settles in one round trip). -/
theorem dateRangePicker_lock_reconciliation_witness :
    ((RangeState.mk (some ⟨2025, 3, 1⟩) (some ⟨2025, 3, 31⟩)
        (some ⟨0, 30⟩)).date_range = some ⟨0, 30⟩)
      ∧ ((RangeState.mk (some ⟨2025, 2, 1⟩) (some ⟨2025, 3, 3⟩)
            (some ⟨0, 30⟩)).date_range = some ⟨0, 30⟩
          ∧ ∃ s' e',
            (RangeState.mk (some ⟨2025, 2, 1⟩) (some ⟨2025, 3, 3⟩)
              (some ⟨0, 30⟩)).start_date = some s'
            ∧ (RangeState.mk (some ⟨2025, 2, 1⟩) (some ⟨2025, 3, 3⟩)
                (some ⟨0, 30⟩)).end_date = some e'
            ∧ dateAdd s' ⟨0, 30⟩ = some e') :=
  ⟨rfl, dateRangePicker_lock_reconciliation.1 16
    (RangeState.mk (some ⟨2025, 3, 1⟩) (some ⟨2025, 3, 31⟩) (some ⟨0, 30⟩))
    ⟨2025, 2, 1⟩
    (RangeState.mk (some ⟨2025, 2, 1⟩) (some ⟨2025, 3, 3⟩) (some ⟨0, 30⟩))
    ⟨0, 30⟩ (by decide) (by decide) (by decide) (by decide)⟩

end Timepiece

namespace Timepiece

open PyDatetime

/-- `DateInput.action_adjust_time` (`pickers/_date_picker.py`): with no date
set, today's date is taken; otherwise the text cursor position selects the
unit — positions 0–3 add `offset` years, 5–6 add months, 8 and beyond add
days (positions 4 and 7 sit on the dashes and do nothing).  The `whenever`
additions are NOT wrapped in a `try`, so an out-of-range result raises a
`ValueError` out of the action (unlike `DateTimeInput.action_adjust_time`,
which catches it). -/
def action_adjust_time (date : Option Date) (cursor_position offset : Int)
    (today : Date) : PyResult (Option Date) :=
  match date with
  | none => .ok (some today)
  | some d =>
    if 0 ≤ cursor_position ∧ cursor_position < 4 then
      match dateAdd d ⟨12 * offset, 0⟩ with
      | none => .raised
      | some d2 => .ok (some d2)
    else if 5 ≤ cursor_position ∧ cursor_position < 7 then
      match dateAdd d ⟨offset, 0⟩ with
      | none => .raised
      | some d2 => .ok (some d2)
    else if 8 ≤ cursor_position then
      match dateAdd d ⟨0, offset⟩ with
      | none => .raised
      | some d2 => .ok (some d2)
    else .ok (some d)

/-- C6 (code bug): the cursor-position-to-unit mapping works as claimed
(0–3 years, 5–6 months, 8+ days), but when the adjusted date falls outside
the representable years the `ValueError` raised by the date arithmetic
propagates out of `DateInput.action_adjust_time` — there is no `try` around
the additions, unlike in `DateTimeInput.action_adjust_time`, so the
operation is not silently rejected as the claim (and the spec's RangeError
contract) states; the prior value does remain unchanged. -/
theorem dateInput_adjust_time_out_of_range_raises :
    action_adjust_time (some ⟨9999, 6, 15⟩) 0 1 ⟨2025, 1, 1⟩ = .raised
      ∧ action_adjust_time (some ⟨2024, 6, 15⟩) 0 1 ⟨2025, 1, 1⟩
          = .ok (some ⟨2025, 6, 15⟩)
      ∧ action_adjust_time (some ⟨2024, 6, 15⟩) 5 1 ⟨2025, 1, 1⟩
          = .ok (some ⟨2024, 7, 15⟩)
      ∧ action_adjust_time (some ⟨2024, 6, 15⟩) 8 1 ⟨2025, 1, 1⟩
          = .ok (some ⟨2024, 6, 16⟩) := by
  refine ⟨by decide, by decide, by decide, by decide⟩

end Timepiece

namespace Timepiece

/-- Modelled from the spec: `normalize_values` from
`textual_timepiece._utility` (the module itself is absent from the sources;
the spec's DataNormalizer contract describes it): linearly rescales every
non-null value to `[0, 1]` by the observed minimum and maximum, maps all
non-null values to the single constant 1/2 when the minimum equals the
maximum, and preserves null positions.  Python floats are modelled as exact
rationals. -/
def normalize_values (xs : List (Option ℚ)) : List (Option ℚ) :=
  match xs.filterMap id with
  | [] => xs
  | v :: vs =>
    let mn := vs.foldl min v
    let mx := vs.foldl max v
    xs.map (Option.map (fun x => if mx = mn then 1 / 2 else (x - mn) / (mx - mn)))

/-- Modelled from the spec: `flat_to_shape` from
`textual_timepiece._utility` (module absent from the sources): re-partitions
the flat sequence back into the jagged shape of the template grid. -/
def flat_to_shape :
    List (Option ℚ) → List (List (Option ℚ)) → List (List (Option ℚ))
  | _, [] => []
  | flat, row :: rest =>
    flat.take row.length :: flat_to_shape (flat.drop row.length) rest

/-- `ActivityHeatmap.process_data` (`_activity_heatmap.py`): flattens the
grid, normalizes, inverts each non-null value to `1 - v`, and reshapes back
into the shape of the input grid. -/
def process_data (data : List (List (Option ℚ))) : List (List (Option ℚ)) :=
  flat_to_shape
    ((normalize_values data.flatten).map (Option.map (fun v => 1 - v))) data

theorem foldl_min_le_init (t : List ℚ) : ∀ a : ℚ, t.foldl min a ≤ a := by
  induction t with
  | nil => simp
  | cons h tl ih =>
    intro a
    simp only [List.foldl_cons]
    exact le_trans (ih (min a h)) (min_le_left a h)

theorem foldl_min_le_of_mem (t : List ℚ) :
    ∀ (a x : ℚ), x ∈ t → t.foldl min a ≤ x := by
  induction t with
  | nil => simp
  | cons h tl ih =>
    intro a x hx
    simp only [List.foldl_cons]
    rcases List.mem_cons.mp hx with hh | ht
    · subst hh
      exact le_trans (foldl_min_le_init tl (min a x)) (min_le_right a x)
    · exact ih (min a h) x ht

theorem le_foldl_max_init (t : List ℚ) : ∀ a : ℚ, a ≤ t.foldl max a := by
  induction t with
  | nil => simp
  | cons h tl ih =>
    intro a
    simp only [List.foldl_cons]
    exact le_trans (le_max_left a h) (ih (max a h))

theorem le_foldl_max_of_mem (t : List ℚ) :
    ∀ (a x : ℚ), x ∈ t → x ≤ t.foldl max a := by
  induction t with
  | nil => simp
  | cons h tl ih =>
    intro a x hx
    simp only [List.foldl_cons]
    rcases List.mem_cons.mp hx with hh | ht
    · subst hh
      exact le_trans (le_max_right a x) (le_foldl_max_init tl (max a x))
    · exact ih (max a h) x ht

theorem mem_normalize_bounds (xs : List (Option ℚ)) (q : ℚ)
    (hq : some q ∈ normalize_values xs) : 0 ≤ q ∧ q ≤ 1 := by
  unfold normalize_values at hq
  rcases hflt : xs.filterMap id with _ | ⟨v, vs⟩
  · rw [hflt] at hq
    have : q ∈ xs.filterMap id := List.mem_filterMap.mpr ⟨some q, hq, rfl⟩
    rw [hflt] at this
    cases this
  · rw [hflt] at hq
    dsimp only at hq
    obtain ⟨o, ho, hmap⟩ := List.mem_map.mp hq
    rcases o with _ | x
    · cases hmap
    · simp only [Option.map_some', Option.some.injEq] at hmap
      have hxmem : x ∈ xs.filterMap id := List.mem_filterMap.mpr ⟨some x, ho, rfl⟩
      rw [hflt] at hxmem
      have hmn : vs.foldl min v ≤ x := by
        rcases List.mem_cons.mp hxmem with hh | ht
        · subst hh
          exact foldl_min_le_init vs x
        · exact foldl_min_le_of_mem vs v x ht
      have hmx : x ≤ vs.foldl max v := by
        rcases List.mem_cons.mp hxmem with hh | ht
        · subst hh
          exact le_foldl_max_init vs x
        · exact le_foldl_max_of_mem vs v x ht
      subst hmap
      by_cases hc : vs.foldl max v = vs.foldl min v
      · rw [if_pos hc]
        norm_num
      · rw [if_neg hc]
        have hlt : vs.foldl min v < vs.foldl max v :=
          lt_of_le_of_ne (le_trans (foldl_min_le_init vs v) (le_foldl_max_init vs v))
            (fun h => hc h.symm)
        have hpos : 0 < vs.foldl max v - vs.foldl min v := by linarith
        constructor
        · exact div_nonneg (by linarith) (le_of_lt hpos)
        · rw [div_le_one hpos]
          linarith

end Timepiece

namespace Timepiece

theorem isNone_map_option {f : ℚ → ℚ} (o : Option ℚ) :
    (Option.map f o).isNone = o.isNone := by
  cases o <;> rfl

theorem map_isNone_of_map {f : ℚ → ℚ} (l : List (Option ℚ)) :
    (l.map (Option.map f)).map Option.isNone = l.map Option.isNone := by
  rw [List.map_map]
  exact List.map_congr_left fun o _ => isNone_map_option o

theorem normalize_values_isNone (xs : List (Option ℚ)) :
    (normalize_values xs).map Option.isNone = xs.map Option.isNone := by
  unfold normalize_values
  rcases xs.filterMap id with _ | ⟨v, vs⟩
  · rfl
  · exact map_isNone_of_map xs

theorem mem_flat_to_shape (t : List (List (Option ℚ))) :
    ∀ (f : List (Option ℚ)) (row : List (Option ℚ)) (o : Option ℚ),
      row ∈ flat_to_shape f t → o ∈ row → o ∈ f := by
  induction t with
  | nil =>
    intro f row o hrow
    cases hrow
  | cons r rest ih =>
    intro f row o hrow ho
    unfold flat_to_shape at hrow
    rcases List.mem_cons.mp hrow with hh | ht
    · subst hh
      exact List.take_subset _ _ ho
    · exact List.drop_subset _ _ (ih _ row o ht ho)

theorem flat_to_shape_isNone (t : List (List (Option ℚ))) :
    ∀ f : List (Option ℚ),
      f.map Option.isNone = t.flatten.map Option.isNone →
      (flat_to_shape f t).map (List.map Option.isNone)
        = t.map (List.map Option.isNone) := by
  induction t with
  | nil =>
    intro f _
    rfl
  | cons r rest ih =>
    intro f hmap
    rw [List.flatten_cons, List.map_append] at hmap
    have hlenr : (r.map Option.isNone).length = r.length := List.length_map r _
    unfold flat_to_shape
    simp only [List.map_cons]
    congr 1
    · rw [List.map_take, hmap, ← hlenr, List.take_left]
    · refine ih (f.drop r.length) ?_
      rw [List.map_drop, hmap, ← hlenr, List.drop_left]

end Timepiece

namespace Timepiece

/-- C9: for every (non-empty) grid of optional samples, `process_data`
rescales the non-null values into `[0, 1]` by the observed min/max (constant
1/2 when they coincide), inverts to `1 - v`, and reshapes back into the
grid's jagged shape: every non-null output lies in `[0, 1]` and the null
positions (and row shape) are preserved exactly. -/
theorem activityHeatmap_process_data_bounds (data : List (List (Option ℚ)))
    (_hne : data.flatten ≠ []) :
    (∀ row ∈ process_data data, ∀ o ∈ row, ∀ q : ℚ,
        o = some q → 0 ≤ q ∧ q ≤ 1)
      ∧ (process_data data).map (List.map Option.isNone)
          = data.map (List.map Option.isNone) := by
  constructor
  · intro row hrow o ho q hq
    subst hq
    have hf : some q ∈ (normalize_values data.flatten).map
        (Option.map (fun v => 1 - v)) :=
      mem_flat_to_shape data _ row (some q) hrow ho
    obtain ⟨o1, ho1, hmap⟩ := List.mem_map.mp hf
    rcases o1 with _ | x
    · cases hmap
    · simp only [Option.map_some', Option.some.injEq] at hmap
      have hx := mem_normalize_bounds data.flatten x ho1
      constructor
      · linarith [hmap, hx.2]
      · linarith [hmap, hx.1]
  · refine flat_to_shape_isNone data _ ?_
    rw [map_isNone_of_map, normalize_values_isNone]

/-- C9 witness: the bounds theorem applied to the jagged grid
`[[0, null], [1]]`. -/
theorem activityHeatmap_process_data_bounds_witness :
    ([[some (0 : ℚ), none], [some 1]].flatten ≠ [])
      ∧ ((∀ row ∈ process_data [[some (0 : ℚ), none], [some 1]],
            ∀ o ∈ row, ∀ q : ℚ, o = some q → 0 ≤ q ∧ q ≤ 1)
          ∧ (process_data [[some (0 : ℚ), none], [some 1]]).map
              (List.map Option.isNone)
            = [[some (0 : ℚ), none], [some 1]].map (List.map Option.isNone)) :=
  ⟨by decide, activityHeatmap_process_data_bounds _ (by decide)⟩

end Timepiece
